import Mathlib

/-!
Verification of the SheetPlotter coordinate pipeline.

The development shallowly embeds the core computations of the repository:
the scalar coordinate parser (`cleanAndParse` in src/App.tsx), the
row-to-point resolver (`processPoints` in src/App.tsx), the column mapping
resolver (`identifyColumns` / `fallbackMapping` in the Gemini service file),
the categorical style assigner (`handleApplyStyle` in src/App.tsx) and the
cluster aggregation of `iconCreateFunction` in src/components/MapDisplay.tsx.

Modelling conventions:
* JavaScript strings are `List Char`; cells of a row are kept as text,
  matching the observed `String(cell)` coercion before every parse.
* JavaScript numbers are modelled as `ℚ`; `parseFloat` is modelled for the
  character set that can actually reach it here (digits, period, minus sign,
  which is all that survives the `replace(/[^0-9.-]/g, '')` cleaning steps).
* `NaN`/rejection is `Option.none`; a missing object property stringifies
  to `"undefined"` exactly as `String(undefined)` does.
-/

namespace SheetPlotter

attribute [local semireducible] Rat.add Rat.mul Rat.inv Rat.sub Rat.ofScientific

/-- Text, modelling a JavaScript string as its list of characters. -/
abbrev Str := List Char

/-- ASCII uppercasing, modelling `String.prototype.toUpperCase` on the
ASCII data handled by the app. -/
def jsToUpper (s : Str) : Str := s.map Char.toUpper

/-- ASCII lowercasing, modelling `String.prototype.toLowerCase`. -/
def jsToLower (s : Str) : Str := s.map Char.toLower

/-- Removal of leading and trailing whitespace, modelling
`String.prototype.trim`. -/
def jsTrim (s : Str) : Str :=
  ((s.dropWhile Char.isWhitespace).reverse.dropWhile Char.isWhitespace).reverse

/-- `isPrefixList n h` is `true` when `n` occurs at the start of `h`.
Used to model `String.prototype.startsWith`. -/
def isPrefixList : Str → Str → Bool
  | [], _ => true
  | _ :: _, [] => false
  | a :: as, b :: bs => a == b && isPrefixList as bs

/-- `strContains s c`: the character `c` occurs in `s`, modelling
`String.prototype.includes` with a one-character argument. -/
def strContains (s : Str) (c : Char) : Bool :=
  s.any (fun d => d == c)

/-- `containsSub n h`: `n` occurs as a contiguous substring of `h`,
modelling `String.prototype.includes` with a longer argument. -/
def containsSub (n : Str) : Str → Bool
  | [] => isPrefixList n []
  | b :: bs => isPrefixList n (b :: bs) || containsSub n bs

/-- Number of comma characters in the text, modelling
`(s.match(/,/g) || []).length` from `cleanAndParse`. -/
def commaCount : Str → Nat
  | [] => 0
  | c :: cs => (if c == ',' then 1 else 0) + commaCount cs

/-- Replace the first comma by a period, modelling
`s.replace(',', '.')` (a string pattern replaces only the first match). -/
def replaceFirstComma : Str → Str
  | [] => []
  | c :: cs => if c == ',' then '.' :: cs else c :: replaceFirstComma cs

/-- Locale-normalization step of `cleanAndParse` (src/App.tsx lines 51-54):
when the text has a comma but no period and the comma count is exactly one,
the comma is rewritten to a period; otherwise the text is left unchanged. -/
def localeNormalize (s : Str) : Str :=
  if strContains s ',' && !strContains s '.' then
    if commaCount s = 1 then replaceFirstComma s else s
  else s

/-- Sign determination of `cleanAndParse` (src/App.tsx line 50): negative
when the trimmed, uppercased text contains `S` or `W` anywhere or starts
with a literal minus sign. -/
def signRule (s : Str) : Bool :=
  strContains s 'S' || strContains s 'W' || isPrefixList ['-'] s

/-- The cleaning step `s.replace(/[^0-9.-]/g, '')`: keep only digits,
periods and minus signs. -/
def cleanChars (s : Str) : Str :=
  s.filter (fun c => c.isDigit || c == '.' || c == '-')

/-- Numeric value of a digit string. -/
def digitsToNat (l : Str) : Nat :=
  l.foldl (fun n c => 10 * n + (c.toNat - '0'.toNat)) 0

/-- `parseFloat` on strings over digits, period and minus sign — the only
characters that can survive `cleanChars`.  As in ECMAScript, the longest
valid decimal-literal prefix is parsed (an optional leading minus sign,
then digits with an optional fractional part); if no digit is found the
result is `NaN`, modelled as `none`.  Exponents need the letter `e`/`E`,
which `cleanChars` removes, so they cannot occur here. -/
def parseFloatQ (s : Str) : Option ℚ :=
  let neg := isPrefixList ['-'] s
  let s1 := if neg then s.drop 1 else s
  let intDigits := s1.takeWhile Char.isDigit
  let rest := s1.dropWhile Char.isDigit
  let fracDigits :=
    match rest with
    | '.' :: t => t.takeWhile Char.isDigit
    | _ => []
  if intDigits = [] ∧ fracDigits = [] then none
  else
    let mag : ℚ :=
      (digitsToNat intDigits : ℚ) + (digitsToNat fracDigits : ℚ) / (10 : ℚ) ^ fracDigits.length
    some (if neg then -mag else mag)

/-- The trimmed, uppercased input — the value the source calls `s` right
after `val.trim().toUpperCase()`. -/
def normalizedText (val : Str) : Str := jsToUpper (jsTrim val)

/-- The cleaned text handed to `parseFloat` by `cleanAndParse`: the
normalized input after locale normalization and character cleaning. -/
def cleanedText (val : Str) : Str := cleanChars (localeNormalize (normalizedText val))

/-- `cleanAndParse` from src/App.tsx lines 47-59: trim and uppercase;
empty text is rejected; determine the sign by `signRule`; rewrite a lone
decimal comma; strip everything but digits, periods and minus signs;
`parseFloat` the remainder; finally force the magnitude to its absolute
value and negate it exactly when the sign rule fired. -/
def cleanAndParse (val : Str) : Option ℚ :=
  let s := normalizedText val
  if s = [] then none
  else
    match parseFloatQ (cleanedText val) with
    | none => none
    | some num => some (if signRule s then -|num| else |num|)

example : cleanAndParse ("48,85".toList) = some (48.85 : ℚ) := by decide
example : cleanAndParse ("S48.85".toList) = some (-48.85 : ℚ) := by decide
example : cleanAndParse ("".toList) = none := by decide
example : cleanAndParse ("S0".toList) = some 0 := by decide
example : cleanAndParse (" -74.0 ".toList) = some (-74.0 : ℚ) := by decide
example : parseFloatQ ("1.2.3".toList) = some (1.2 : ℚ) := by decide
example : parseFloatQ (".".toList) = none := by decide
example : parseFloatQ ("-.5".toList) = some (-0.5 : ℚ) := by decide

/-- A row of the sheet: an association list from column name to cell text
(cells are modelled as text, matching the `String(cell)` coercion applied
before every use). -/
abbrev SheetRow := List (Str × Str)

/-- First-match association-list lookup, modelling JavaScript property
access `obj[key]` (object keys are unique, so first match is the match). -/
def alookup (k : Str) : List (Str × Str) → Option Str
  | [] => none
  | (k2, v) :: es => if k = k2 then some v else alookup k es

/-- The text `String(undefined)` produces for a missing property. -/
def undefinedStr : Str := "undefined".toList

/-- `String(row[k])`: the cell text of column `k`, or `"undefined"` when
the row has no such column. -/
def rowGet (row : SheetRow) (k : Str) : Str :=
  match alookup k row with
  | some v => v
  | none => undefinedStr

/-- ColumnMapping from src/types.ts: the chosen latitude and longitude
source columns; equal names signal combined-column mode. -/
structure ColumnMapping where
  latColumn : Str
  lngColumn : Str
deriving DecidableEq

/-- PlotPoint from src/types.ts (`lat`/`lng` as numbers plus the source
row, called `data` in the source). -/
structure PlotPoint where
  lat : ℚ
  lng : ℚ
  data : SheetRow
deriving DecidableEq

/-- `combined.split(/[,;]/)` from `processPoints`: split the text at every
comma or semicolon; like the JavaScript original this never returns an
empty list (an empty input gives `[""]`), and delimiters at the ends or
adjacent delimiters yield empty pieces. -/
def splitDelims : Str → List Str
  | [] => [[]]
  | c :: cs =>
    if c == ',' || c == ';' then [] :: splitDelims cs
    else
      match splitDelims cs with
      | [] => [[c]]
      | p :: ps => (c :: p) :: ps

/-- The `lat`/`lng` candidates `processPoints` computes for one row
(src/App.tsx lines 66-78): in combined-column mode the one cell is split
and, when at least two parts result, parts 0 and 1 are parsed; in
dual-column mode the two named cells are parsed. -/
def coordsOf (m : ColumnMapping) (row : SheetRow) : Option ℚ × Option ℚ :=
  if m.latColumn = m.lngColumn then
    match splitDelims (rowGet row m.latColumn) with
    | p0 :: p1 :: _ => (cleanAndParse p0, cleanAndParse p1)
    | _ => (none, none)
  else
    (cleanAndParse (rowGet row m.latColumn), cleanAndParse (rowGet row m.lngColumn))

/-- The per-row body of `processPoints` (src/App.tsx lines 65-82): a row
contributes a point exactly when both coordinates parse, both lie in
range, and the pair is not the origin. -/
def resolveRow (m : ColumnMapping) (row : SheetRow) : Option PlotPoint :=
  match coordsOf m row with
  | (some lat, some lng) =>
    if -90 ≤ lat ∧ lat ≤ 90 ∧ -180 ≤ lng ∧ lng ≤ 180 ∧ (lat ≠ 0 ∨ lng ≠ 0) then
      some { lat := lat, lng := lng, data := row }
    else none
  | _ => none

/-- `processPoints` from src/App.tsx lines 61-84: with no mapping or an
empty column name the result is empty; otherwise the rows are resolved in
order and rows that yield no point are dropped without a gap. -/
def processPoints (rows : List SheetRow) (mapping : Option ColumnMapping) : List PlotPoint :=
  match mapping with
  | none => []
  | some m =>
    if m.latColumn = [] ∨ m.lngColumn = [] then []
    else rows.filterMap (resolveRow m)

/-- Latitude-side header heuristic of `fallbackMapping`: the lowercased
header contains `lat` or `y`, or equals `coordinates` or `coords`. -/
def isLatHeader (h : Str) : Bool :=
  let l := jsToLower h
  containsSub ("lat".toList) l || containsSub ("y".toList) l ||
    l == "coordinates".toList || l == "coords".toList

/-- Longitude-side header heuristic of `fallbackMapping`: the lowercased
header contains `lng`, `long` or `x`, or equals `coordinates` or
`coords`. -/
def isLngHeader (h : Str) : Bool :=
  let l := jsToLower h
  containsSub ("lng".toList) l || containsSub ("long".toList) l ||
    containsSub ("x".toList) l || l == "coordinates".toList || l == "coords".toList

/-- JavaScript `a || b` for a possibly-missing string: `undefined` and the
empty string are falsy.  The missing case is modelled as the empty string,
which downstream code treats identically (both fail the
`!mapping.latColumn` truthiness guard). -/
def jsOrElse (a : Option Str) (b : Str) : Str :=
  match a with
  | some s => if s = [] then b else s
  | none => b

/-- `fallbackMapping` from the Gemini service file: the first header
matching each side's heuristic, with a positional default of
`headers[0]` / `headers[1]` when no header matches. -/
def fallbackMapping (headers : List Str) : ColumnMapping :=
  { latColumn := jsOrElse (headers.find? isLatHeader) (headers.getD 0 [])
    lngColumn := jsOrElse (headers.find? isLngHeader) (headers.getD 1 []) }

/-- `identifyColumns` from the Gemini service file.  The asynchronous
Gemini call is abstracted as an optional externally produced hint:
`hint = none` covers both the missing-API-key early return and a failed
call, in which case the deterministic `fallbackMapping` is used; on
success the parsed response mapping is returned exactly as received —
the source performs no further check on it. -/
def identifyColumns (headers : List Str) (hint : Option ColumnMapping) : ColumnMapping :=
  match hint with
  | some m => m
  | none => fallbackMapping headers

/-- The fixed ten-color palette from src/App.tsx lines 9-12. -/
def PALETTE : List Str :=
  ["#ef4444".toList, "#3b82f6".toList, "#10b981".toList, "#f59e0b".toList,
   "#8b5cf6".toList, "#ec4899".toList, "#06b6d4".toList, "#f97316".toList,
   "#6366f1".toList, "#14b8a6".toList]

/-- `Array.from(new Set(...))`: the distinct values in first-occurrence
order (JavaScript `Set` iterates in insertion order). -/
def distinctFirst (l : List Str) : List Str :=
  l.foldl (fun acc v => if v ∈ acc then acc else acc ++ [v]) []

/-- StyleRule from src/types.ts; the constant `type: 'categorical'` tag is
omitted, `colorMap` is the value-to-color record. -/
structure StyleRule where
  column : Str
  colorMap : List (Str × Str)
deriving DecidableEq

/-- The `colorMap` record built by `handleApplyStyle` (src/App.tsx lines
122-124): the distinct stringified values of the column, each bound to
`PALETTE[idx % PALETTE.length]` by its first-occurrence index. -/
def styleColorMap (rows : List SheetRow) (columnName : Str) : List (Str × Str) :=
  (distinctFirst (rows.map (fun r => rowGet r columnName))).enum.map
    (fun p => (p.2, PALETTE.getD (p.1 % PALETTE.length) []))

/-- `handleApplyStyle` from src/App.tsx lines 117-127, restricted to the
rule it computes: an empty column name clears the rule; otherwise a
categorical rule for the column is built from the current rows. -/
def handleApplyStyle (rows : List SheetRow) (columnName : Str) : Option StyleRule :=
  if columnName = [] then none
  else some { column := columnName, colorMap := styleColorMap rows columnName }

/-- The case-insensitively matched highlight column name. -/
def latentoStr : Str := "latento".toList

/-- The `latentoValue` marker option from src/components/MapDisplay.tsx
lines 114-115: the stringified cell of the first column whose lowercased
name is `latento`, or the empty string when there is none. -/
def latentoValue (row : SheetRow) : Str :=
  match row.find? (fun kv => jsToLower kv.1 == latentoStr) with
  | some kv => kv.2
  | none => []

/-- The value shown on a cluster glyph: a plain number (`num`), or a
number rendered by `toFixed(1)` (`fixed`, carrying the rounded value). -/
inductive DisplayValue where
  | num (q : ℚ)
  | fixed (q : ℚ)
deriving DecidableEq

/-- `toFixed(1)` as a value: the multiple of `1/10` closest to `q`, ties
resolved to the larger candidate per the ECMAScript specification of
`Number.prototype.toFixed`. -/
def toFixed1 (q : ℚ) : ℚ := (⌊q * 10 + 1 / 2⌋ : ℤ) / 10

/-- One step of the `markers.forEach` accumulation in
`iconCreateFunction` (src/components/MapDisplay.tsx lines 54-64): the
accumulator is `(totalLatento, hasNumericValue)`; a non-empty value whose
stripped text parses is added and sets the flag. -/
def clusterStep (acc : ℚ × Bool) (val : Str) : ℚ × Bool :=
  if val ≠ [] then
    match parseFloatQ (cleanChars val) with
    | some num => (acc.1 + num, true)
    | none => acc
  else acc

/-- The `displayValue` computed by `iconCreateFunction`
(src/components/MapDisplay.tsx lines 49-68) from the member markers'
`latentoValue` options: the sum of the parsed members when any parses
(as a plain number when integral, else via `toFixed(1)`), otherwise the
child count. -/
def iconCreateDisplayValue (vals : List Str) : DisplayValue :=
  let acc := vals.foldl clusterStep (0, false)
  if acc.2 then
    if acc.1.den = 1 then DisplayValue.num acc.1
    else DisplayValue.fixed (toFixed1 acc.1)
  else DisplayValue.num (vals.length : ℚ)

/-- A group member's contribution test, as the specification words it: a
member's highlight value parses when, after stripping characters other
than digits, period and minus, `parseFloat` accepts it (the source also
skips the empty string up front, which strips to the empty string and is
rejected by `parseFloat` anyway). -/
def parseLatento (val : Str) : Option ℚ :=
  if val = [] then none else parseFloatQ (cleanChars val)

example : splitDelims ("40.7;-74.0".toList) = ["40.7".toList, "-74.0".toList] := by decide
example : splitDelims ("".toList) = [[]] := by decide
example : fallbackMapping ["A".toList, "B".toList] =
    { latColumn := "A".toList, lngColumn := "B".toList } := by decide
example : fallbackMapping ["City".toList, "X".toList, "Y".toList] =
    { latColumn := "City".toList, lngColumn := "X".toList } := by decide
example : iconCreateDisplayValue ["10kg".toList, "5kg".toList, "bad".toList] =
    DisplayValue.num 15 := by decide
example : iconCreateDisplayValue ["bad".toList, "x".toList] = DisplayValue.num 2 := by decide
example : processPoints [[("c".toList, "48,85".toList)]]
    (some { latColumn := "c".toList, lngColumn := "c".toList }) =
    [{ lat := 48, lng := 85, data := [("c".toList, "48,85".toList)] }] := by decide
example : processPoints [[("c".toList, "40.7;-74.0".toList)]]
    (some { latColumn := "c".toList, lngColumn := "c".toList }) =
    [{ lat := 40.7, lng := -74.0, data := [("c".toList, "40.7;-74.0".toList)] }] := by decide
example : processPoints [[("la".toList, "0".toList), ("ln".toList, "0".toList)]]
    (some { latColumn := "la".toList, lngColumn := "ln".toList }) = [] := by decide
example : styleColorMap [[("t".toList, "a".toList)], [("t".toList, "b".toList)],
    [("t".toList, "a".toList)]] ("t".toList) =
    [("a".toList, "#ef4444".toList), ("b".toList, "#3b82f6".toList)] := by decide

/-! Concrete rows and mappings used by the claim theorems and their
witnesses. -/

/-- A dual-column mapping reading columns `la` and `ln`. -/
def dualMapping : ColumnMapping := { latColumn := "la".toList, lngColumn := "ln".toList }

/-- A row whose two coordinate cells are both the text `0`. -/
def zeroRow : SheetRow := [("la".toList, "0".toList), ("ln".toList, "0".toList)]

/-- A row holding New York's coordinates in two columns. -/
def demoDualRow : SheetRow := [("la".toList, "40.7".toList), ("ln".toList, "-74.0".toList)]

/-- A combined-column mapping: both sides name the one column `c`. -/
def comboMapping : ColumnMapping := { latColumn := "c".toList, lngColumn := "c".toList }

/-- A row whose single coordinate cell is `40.7;-74.0`. -/
def comboRow : SheetRow := [("c".toList, "40.7;-74.0".toList)]

/-- A row whose single coordinate cell is the European-style number
`48,85`. -/
def euroRow : SheetRow := [("c".toList, "48,85".toList)]

/-! Helper lemmas shared by the claim theorems. -/

/-- A point produced by `resolveRow` satisfies all bounds checked by the
guard. -/
lemma resolveRow_eq_some {m : ColumnMapping} {row : SheetRow} {p : PlotPoint}
    (h : resolveRow m row = some p) :
    -90 ≤ p.lat ∧ p.lat ≤ 90 ∧ -180 ≤ p.lng ∧ p.lng ≤ 180 ∧ (p.lat ≠ 0 ∨ p.lng ≠ 0) := by
  unfold resolveRow at h
  rcases hc : coordsOf m row with ⟨latO, lngO⟩
  rw [hc] at h
  cases latO with
  | none => simp at h
  | some lat =>
    cases lngO with
    | none => simp at h
    | some lng =>
      simp only at h
      split_ifs at h with hcond
      cases h
      exact hcond

/-- `splitDelims` never returns the empty list. -/
lemma splitDelims_ne_nil (s : Str) : splitDelims s ≠ [] := by
  cases s with
  | nil => simp [splitDelims]
  | cons c cs =>
    simp only [splitDelims]
    split
    · simp
    · rcases h : splitDelims cs with _ | ⟨p, ps⟩ <;> simp

/-- No piece produced by `splitDelims` contains a delimiter. -/
lemma mem_splitDelims_not_delim : ∀ (s p : Str), p ∈ splitDelims s → ',' ∉ p ∧ ';' ∉ p := by
  intro s
  induction s with
  | nil =>
    intro p hp
    simp [splitDelims] at hp
    subst hp
    simp
  | cons c cs ih =>
    intro p hp
    simp only [splitDelims] at hp
    by_cases hd : (c == ',' || c == ';') = true
    · rw [if_pos hd] at hp
      rcases List.mem_cons.1 hp with h | h
      · subst h; simp
      · exact ih p h
    · rw [if_neg hd] at hp
      have hc1 : c ≠ ',' := by intro hEq; subst hEq; simp at hd
      have hc2 : c ≠ ';' := by intro hEq; subst hEq; simp at hd
      rcases hsp : splitDelims cs with _ | ⟨q, qs⟩
      · exact absurd hsp (splitDelims_ne_nil cs)
      · rw [hsp] at hp
        rcases List.mem_cons.1 hp with h | h
        · subst h
          have hq := ih q (by rw [hsp]; exact List.mem_cons_self q qs)
          constructor
          · simp only [List.mem_cons, not_or]
            exact ⟨fun hEq => hc1 hEq.symm, hq.1⟩
          · simp only [List.mem_cons, not_or]
            exact ⟨fun hEq => hc2 hEq.symm, hq.2⟩
        · exact ih p (by rw [hsp]; exact List.mem_cons_of_mem q h)

/-- A text with exactly one comma does contain a comma. -/
lemma strContains_comma_of_commaCount_one :
    ∀ s : Str, commaCount s = 1 → strContains s ',' = true := by
  intro s
  induction s with
  | nil => intro h; simp [commaCount] at h
  | cons c cs ih =>
    intro h
    by_cases hc : c = ','
    · subst hc
      simp [strContains]
    · have hcc : (c == ',') = false := by simp [hc]
      have h' : commaCount cs = 1 := by simpa [commaCount, hcc] using h
      have hcs := ih h'
      simp only [strContains, List.any_cons, hcc, Bool.false_or]
      simpa [strContains] using hcs

/-! The claim theorems. -/

/-- Claim C1, counterexample: `identifyColumns` uses an externally
produced hint verbatim even when the hint names columns that do not occur
in the header list — here the hint `{Z, Q}` is returned unchanged although
`Z` is not among the headers `[A, B]`, so the claim that such a hint never
propagates is false on the code. -/
theorem identifyColumns_unvalidated_hint_cex :
    identifyColumns ["A".toList, "B".toList]
        (some { latColumn := "Z".toList, lngColumn := "Q".toList }) =
      { latColumn := "Z".toList, lngColumn := "Q".toList }
    ∧ ("Z".toList : Str) ∉ (["A".toList, "B".toList] : List Str) :=
  ⟨rfl, by decide⟩

/-- Claim C1, amended: the Column Mapping Resolver returns the external
hint verbatim whenever the external call yields one, with no revalidation
of its column names against the headers; the deterministic fallback is
used exactly when no hint is produced (missing API key or failed call). -/
theorem identifyColumns_hint_passthrough :
    ∀ (headers : List Str) (m : ColumnMapping),
      identifyColumns headers (some m) = m ∧
      identifyColumns headers none = fallbackMapping headers :=
  fun _ _ => ⟨rfl, rfl⟩

/-- Claim C9: the Row-to-Point Resolver returns the empty sequence (and in
this total embedding cannot raise) when the mapping is absent or either
column name is empty, and returns the empty sequence on an empty row list
for every mapping. -/
theorem processPoints_inert :
    (∀ rows : List SheetRow, processPoints rows none = [])
    ∧ (∀ (rows : List SheetRow) (m : ColumnMapping),
        m.latColumn = [] ∨ m.lngColumn = [] → processPoints rows (some m) = [])
    ∧ (∀ mo : Option ColumnMapping, processPoints [] mo = []) := by
  refine ⟨fun rows => rfl, fun rows m h => ?_, fun mo => ?_⟩
  · simp only [processPoints]
    rw [if_pos h]
  · cases mo with
    | none => rfl
    | some m =>
      simp only [processPoints, List.filterMap_nil]
      split <;> rfl

/-- Claim C9, witness: a concrete mapping with an empty latitude column is
inert. -/
theorem processPoints_inert_witness :
    processPoints [[(("a".toList : Str), ("1".toList : Str))]]
      (some { latColumn := [], lngColumn := "b".toList }) = [] :=
  processPoints_inert.2.1 _ _ (Or.inl rfl)

/-- Claim C2: every point produced by `processPoints` satisfies
`-90 ≤ lat ≤ 90`, `-180 ≤ lng ≤ 180` and `(lat, lng) ≠ (0, 0)`; a row both
of whose resolved coordinates are `0` yields no point, even though the
text `0` on its own parses successfully. -/
theorem processPoints_invariant :
    (∀ (rows : List SheetRow) (mapping : Option ColumnMapping) (p : PlotPoint),
        p ∈ processPoints rows mapping →
        -90 ≤ p.lat ∧ p.lat ≤ 90 ∧ -180 ≤ p.lng ∧ p.lng ≤ 180 ∧ ¬(p.lat = 0 ∧ p.lng = 0))
    ∧ (∀ (m : ColumnMapping) (row : SheetRow),
        coordsOf m row = (some 0, some 0) → resolveRow m row = none)
    ∧ cleanAndParse ("0".toList) = some 0
    ∧ processPoints [zeroRow] (some dualMapping) = [] := by
  refine ⟨fun rows mapping p hp => ?_, fun m row hc => ?_, by decide, by decide⟩
  · cases mapping with
    | none => simp [processPoints] at hp
    | some m =>
      simp only [processPoints] at hp
      split at hp
      · simp at hp
      · obtain ⟨row, -, hres⟩ := List.mem_filterMap.1 hp
        have h := resolveRow_eq_some hres
        exact ⟨h.1, h.2.1, h.2.2.1, h.2.2.2.1, by tauto⟩
  · unfold resolveRow
    rw [hc]
    simp only
    rw [if_neg (by decide)]

/-- Claim C2, witness: the invariant instantiated at a concrete resolved
point, and the all-zero row instantiating the origin-rejection conjunct. -/
theorem processPoints_invariant_witness :
    -90 ≤ (40.7 : ℚ) ∧ (40.7 : ℚ) ≤ 90 ∧ -180 ≤ (-74.0 : ℚ) ∧ (-74.0 : ℚ) ≤ 180 ∧
      ¬((40.7 : ℚ) = 0 ∧ (-74.0 : ℚ) = 0) :=
  processPoints_invariant.1 [demoDualRow] (some dualMapping)
    { lat := 40.7, lng := -74.0, data := demoDualRow } (by decide)

/-- Claim C6: the Scalar Coordinate Parser rewrites the comma to a period
exactly when the text has exactly one comma and no period (the rewrite
replacing that one comma), leaves the text unchanged whenever the comma
count differs from one, and so `parse("48,85") = 48.85`. -/
theorem localeNormalize_spec :
    (∀ s : Str,
        (commaCount s = 1 → strContains s '.' = false →
          localeNormalize s = replaceFirstComma s)
        ∧ (commaCount s ≠ 1 → localeNormalize s = s))
    ∧ cleanAndParse ("48,85".toList) = some (48.85 : ℚ) := by
  refine ⟨fun s => ⟨fun h1 h2 => ?_, fun hne => ?_⟩, by decide⟩
  · have hcomma := strContains_comma_of_commaCount_one s h1
    simp [localeNormalize, hcomma, h2, h1]
  · unfold localeNormalize
    rcases hcm : strContains s ',' <;> rcases hd : strContains s '.' <;> simp [hne]

/-- Claim C6, witness: the rewrite fires on `48,85` and does not fire on
`48,85,12`. -/
theorem localeNormalize_spec_witness :
    localeNormalize ("48,85".toList) = replaceFirstComma ("48,85".toList) ∧
    localeNormalize ("48,85,12".toList) = ("48,85,12".toList : Str) :=
  ⟨(localeNormalize_spec.1 _).1 (by decide) (by decide),
   (localeNormalize_spec.1 _).2 (by decide)⟩

/-- Claim C10: in combined-column mode a comma always acts as the
coordinate delimiter and never as a decimal separator — no piece produced
by the split contains a comma (or semicolon), so the locale normalization
of the scalar parser can never see one; consequently the single
European-style cell `48,85` yields the point `(48, 85)` instead of being
parsed as the one number `48.85` or rejected. -/
theorem combined_comma_is_delimiter :
    (∀ s p : Str, p ∈ splitDelims s → ',' ∉ p ∧ ';' ∉ p)
    ∧ processPoints [euroRow] (some comboMapping) =
        [{ lat := 48, lng := 85, data := euroRow }] :=
  ⟨mem_splitDelims_not_delim, by decide⟩

/-- Claim C10, witness: the first piece of the split of `48,85` is
comma-free. -/
theorem combined_comma_is_delimiter_witness :
    (',' ∉ ("48".toList : Str)) ∧ (';' ∉ ("48".toList : Str)) :=
  combined_comma_is_delimiter.1 ("48,85".toList) ("48".toList) (by decide)

/-- Claim C3, counterexample: `parse("S0")` succeeds with result `0`; the
sign rule fires (the text contains `S`), yet the result is not negative,
so "a successful result is negative if and only if the sign rule fires"
is false on the code as stated. -/
theorem cleanAndParse_sign_iff_cex :
    cleanAndParse ("S0".toList) = some 0 ∧
    signRule (normalizedText ("S0".toList)) = true ∧
    ¬ (((0 : ℚ) < 0) ↔ signRule (normalizedText ("S0".toList)) = true) := by
  refine ⟨by decide, by decide, by decide⟩

/-- Claim C3, amended: a successful result of the Scalar Coordinate Parser
is negative if and only if the sign rule fires on the trimmed, uppercased
text (it contains `S` or `W` anywhere or starts with a literal minus sign)
and the parsed magnitude is nonzero; the returned value is the absolute
value of the number parsed from the cleaned text, negated exactly when the
sign rule fires, so the hemisphere/prefix sign overrides any stray minus
signs in the cleaned text, e.g. `parse("S48.85") = -48.85`. -/
theorem cleanAndParse_sign_correct :
    (∀ (val : Str) (q : ℚ), cleanAndParse val = some q →
        ((q < 0 ↔ (signRule (normalizedText val) = true ∧ q ≠ 0))
         ∧ some q = (parseFloatQ (cleanedText val)).map
             (fun m => if signRule (normalizedText val) then -|m| else |m|)))
    ∧ cleanAndParse ("S48.85".toList) = some (-48.85 : ℚ) := by
  refine ⟨fun val q h => ?_, by decide⟩
  unfold cleanAndParse at h
  by_cases hs : normalizedText val = []
  · rw [if_pos hs] at h
    exact absurd h (by simp)
  · rw [if_neg hs] at h
    cases hp : parseFloatQ (cleanedText val) with
    | none =>
      rw [hp] at h
      exact absurd h (by simp)
    | some m =>
      rw [hp] at h
      simp only at h
      have hq : q = if signRule (normalizedText val) then -|m| else |m| :=
        (Option.some.inj h).symm
      subst hq
      constructor
      · cases hsr : signRule (normalizedText val) with
        | false =>
          simp only [hsr, Bool.false_eq_true, false_and, iff_false, if_neg, not_lt,
            Bool.false_eq_true, if_false]
          exact abs_nonneg m
        | true =>
          simp only [hsr, if_true, true_and]
          constructor
          · exact fun hlt => ne_of_lt hlt
          · intro hne
            have habs : |m| ≠ 0 := fun hEq => hne (by rw [hEq, neg_zero])
            have hpos : 0 < |m| := lt_of_le_of_ne (abs_nonneg m) (Ne.symm habs)
            linarith
      · rfl

/-- Claim C3, witness: the amended statement instantiated at the input
`S48.85` with result `-48.85`. -/
theorem cleanAndParse_sign_correct_witness :
    (((-48.85 : ℚ) < 0 ↔ (signRule (normalizedText ("S48.85".toList)) = true ∧
        (-48.85 : ℚ) ≠ 0))
     ∧ some (-48.85 : ℚ) = (parseFloatQ (cleanedText ("S48.85".toList))).map
         (fun m => if signRule (normalizedText ("S48.85".toList)) then -|m| else |m|)) :=
  cleanAndParse_sign_correct.1 ("S48.85".toList) (-48.85) (by decide)

/-- Combined-column row resolution as the specification words it: split
the one cell's text on comma or semicolon, skip the row when fewer than
two parts result, otherwise parse the first two parts independently as
lat and lng — any further parts are ignored by the wildcard — and keep the
point exactly when both parse and the Point invariant holds. -/
def specCombinedResolve (m : ColumnMapping) (row : SheetRow) : Option PlotPoint :=
  match splitDelims (rowGet row m.latColumn) with
  | p0 :: p1 :: _ =>
    match cleanAndParse p0, cleanAndParse p1 with
    | some lat, some lng =>
      if -90 ≤ lat ∧ lat ≤ 90 ∧ -180 ≤ lng ∧ lng ≤ 180 ∧ (lat ≠ 0 ∨ lng ≠ 0) then
        some { lat := lat, lng := lng, data := row }
      else none
    | _, _ => none
  | _ => none

/-- Claim C5: in combined-column mode (`latColumn = lngColumn`, nonempty)
the Row-to-Point Resolver behaves exactly as the split/skip/first-two
description `specCombinedResolve`; in particular a cell `40.7;-74.0`
yields the point `(40.7, -74.0)`. -/
theorem processPoints_combined_mode :
    (∀ (m : ColumnMapping) (rows : List SheetRow),
        m.latColumn = m.lngColumn → m.latColumn ≠ [] →
        processPoints rows (some m) = rows.filterMap (specCombinedResolve m))
    ∧ processPoints [comboRow] (some comboMapping) =
        [{ lat := 40.7, lng := -74.0, data := comboRow }] := by
  refine ⟨fun m rows hEq hNe => ?_, by decide⟩
  have hfun : resolveRow m = specCombinedResolve m := by
    funext row
    unfold resolveRow coordsOf specCombinedResolve
    rw [if_pos hEq]
    cases hsp : splitDelims (rowGet row m.latColumn) with
    | nil => rfl
    | cons p0 ps =>
      cases ps with
      | nil => rfl
      | cons p1 rest =>
        cases hc0 : cleanAndParse p0 <;> cases hc1 : cleanAndParse p1 <;>
          simp [hc0, hc1]
  simp only [processPoints]
  rw [if_neg (by rw [← hEq]; simp [hNe]), hfun]

/-- Claim C5, witness: the combined-mode equation instantiated at the
concrete one-column mapping and the row `40.7;-74.0`. -/
theorem processPoints_combined_mode_witness :
    processPoints [comboRow] (some comboMapping) =
      [comboRow].filterMap (specCombinedResolve comboMapping) :=
  processPoints_combined_mode.1 comboMapping [comboRow] rfl (by decide)

/-- Claim C7: with no usable hint the latitude column is the first header
matching the case-insensitive `lat`/`y`/`coordinates`/`coords` heuristic
and the longitude column the first matching
`lng`/`long`/`x`/`coordinates`/`coords`; a side with no candidate falls
back positionally to the first (latitude) or second (longitude) header;
`[A, B]` with no heuristic match yields `{A, B}`, and on `[City, X, Y]`
the latitude side is decided by the heuristic (which finds `City`, since
`city` contains `y`), not by the positional fallback. -/
theorem fallbackMapping_spec :
    (∀ (headers : List Str) (h : Str),
        headers.find? isLatHeader = some h → (fallbackMapping headers).latColumn = h)
    ∧ (∀ headers : List Str, 2 ≤ headers.length →
        headers.find? isLatHeader = none →
        (fallbackMapping headers).latColumn = headers.getD 0 [])
    ∧ (∀ (headers : List Str) (h : Str),
        headers.find? isLngHeader = some h → (fallbackMapping headers).lngColumn = h)
    ∧ (∀ headers : List Str, 2 ≤ headers.length →
        headers.find? isLngHeader = none →
        (fallbackMapping headers).lngColumn = headers.getD 1 [])
    ∧ fallbackMapping ["A".toList, "B".toList] =
        { latColumn := "A".toList, lngColumn := "B".toList }
    ∧ (List.find? isLatHeader ["City".toList, "X".toList, "Y".toList] = some ("City".toList)
       ∧ fallbackMapping ["City".toList, "X".toList, "Y".toList] =
           { latColumn := "City".toList, lngColumn := "X".toList }) := by
  refine ⟨fun headers h hf => ?_, fun headers _ hf => ?_, fun headers h hf => ?_,
    fun headers _ hf => ?_, by decide, by decide, by decide⟩
  · have hpred : isLatHeader h = true := List.find?_some hf
    have hne : h ≠ [] := by
      intro hEq
      subst hEq
      exact absurd hpred (by decide)
    simp [fallbackMapping, jsOrElse, hf, hne]
  · simp [fallbackMapping, jsOrElse, hf]
  · have hpred : isLngHeader h = true := List.find?_some hf
    have hne : h ≠ [] := by
      intro hEq
      subst hEq
      exact absurd hpred (by decide)
    simp [fallbackMapping, jsOrElse, hf, hne]
  · simp [fallbackMapping, jsOrElse, hf]

/-- Claim C7, witness: the positional fallback instantiated on `[A, B]`
and the heuristic instantiated on `[City, X, Y]`. -/
theorem fallbackMapping_spec_witness :
    (fallbackMapping ["A".toList, "B".toList]).latColumn =
        (["A".toList, "B".toList] : List Str).getD 0 []
    ∧ (fallbackMapping ["City".toList, "X".toList, "Y".toList]).latColumn = "City".toList :=
  ⟨fallbackMapping_spec.2.1 _ (by decide) (by decide),
   fallbackMapping_spec.1 _ _ (by decide)⟩

/-- The `forEach` accumulation of `iconCreateFunction` computes the sum
and non-emptiness of the members that parse. -/
lemma foldl_clusterStep :
    ∀ (vals : List Str) (t : ℚ) (b : Bool),
      vals.foldl clusterStep (t, b) =
        (t + (vals.filterMap parseLatento).sum,
         b || !(vals.filterMap parseLatento).isEmpty) := by
  intro vals
  induction vals with
  | nil => intro t b; simp
  | cons v vs ih =>
    intro t b
    by_cases hv : v = []
    · subst hv
      have h1 : clusterStep (t, b) [] = (t, b) := by simp [clusterStep]
      have h2 : parseLatento ([] : Str) = none := by simp [parseLatento]
      simp only [List.foldl_cons, List.filterMap_cons, h1, h2]
      exact ih t b
    · cases hp : parseFloatQ (cleanChars v) with
      | none =>
        have h1 : clusterStep (t, b) v = (t, b) := by simp [clusterStep, hv, hp]
        have h2 : parseLatento v = none := by simp [parseLatento, hv, hp]
        simp only [List.foldl_cons, List.filterMap_cons, h1, h2]
        exact ih t b
      | some n =>
        have h1 : clusterStep (t, b) v = (t + n, true) := by simp [clusterStep, hv, hp]
        have h2 : parseLatento v = some n := by simp [parseLatento, hv, hp]
        simp only [List.foldl_cons, List.filterMap_cons, h1, h2]
        rw [ih (t + n) true]
        simp [add_assoc]

/-- Claim C4: for a group of points, when at least one member's highlight
value parses after stripping, the display value is the sum of all parsing
members — a plain number when the sum is integral, else the sum rendered
by `toFixed(1)` — and when no member parses it is the point count of the
group. -/
theorem iconDisplayValue_spec :
    ∀ (group : List PlotPoint) (vals : List Str),
      vals = group.map (fun p => latentoValue p.data) →
      ((vals.filterMap parseLatento ≠ [] →
          iconCreateDisplayValue vals =
            (if (vals.filterMap parseLatento).sum.den = 1
             then DisplayValue.num (vals.filterMap parseLatento).sum
             else DisplayValue.fixed (toFixed1 (vals.filterMap parseLatento).sum)))
       ∧ (vals.filterMap parseLatento = [] →
          iconCreateDisplayValue vals = DisplayValue.num (group.length : ℚ))) := by
  intro group vals hv
  constructor
  · intro h
    simp only [iconCreateDisplayValue]
    rw [foldl_clusterStep vals 0 false]
    cases hfm : vals.filterMap parseLatento with
    | nil => exact absurd hfm h
    | cons x xs => simp
  · intro h
    simp only [iconCreateDisplayValue]
    rw [foldl_clusterStep vals 0 false, h]
    simp [hv]

/-- A one-column row holding a highlight value under the key `Latento`. -/
def latentoRow (v : Str) : SheetRow := [("Latento".toList, v)]

/-- A three-point group with highlight values `10kg`, `5kg`, `bad`. -/
def demoGroup : List PlotPoint :=
  [{ lat := 1, lng := 1, data := latentoRow ("10kg".toList) },
   { lat := 2, lng := 2, data := latentoRow ("5kg".toList) },
   { lat := 3, lng := 3, data := latentoRow ("bad".toList) }]

/-- The highlight values of `demoGroup`. -/
def demoVals : List Str := demoGroup.map (fun p => latentoValue p.data)

/-- A two-point group whose highlight values are all non-numeric. -/
def demoGroup2 : List PlotPoint :=
  [{ lat := 1, lng := 1, data := latentoRow ("bad".toList) },
   { lat := 2, lng := 2, data := latentoRow ("nope".toList) }]

/-- The highlight values of `demoGroup2`. -/
def demoVals2 : List Str := demoGroup2.map (fun p => latentoValue p.data)

/-- Claim C4, witness: the group `10kg`, `5kg`, `bad` displays the sum
`15`, and an all-non-numeric group of two points displays the count `2`. -/
theorem iconDisplayValue_spec_witness :
    iconCreateDisplayValue demoVals = DisplayValue.num 15 ∧
    iconCreateDisplayValue demoVals2 = DisplayValue.num 2 := by
  constructor
  · have h := (iconDisplayValue_spec demoGroup demoVals rfl).1 (by decide)
    rw [h]
    decide
  · have h := (iconDisplayValue_spec demoGroup2 demoVals2 rfl).2 (by decide)
    rw [h]
    decide

/-- The insertion-ordered distinct-value accumulation preserves freedom
from duplicates. -/
lemma distinctFirst_aux_nodup :
    ∀ (l : List Str) (acc : List Str), acc.Nodup →
      (l.foldl (fun acc v => if v ∈ acc then acc else acc ++ [v]) acc).Nodup := by
  intro l
  induction l with
  | nil => intro acc h; simpa using h
  | cons v vs ih =>
    intro acc h
    simp only [List.foldl_cons]
    by_cases hv : v ∈ acc
    · rw [if_pos hv]
      exact ih acc h
    · rw [if_neg hv]
      refine ih _ ?_
      simp [List.nodup_append, h, hv]

/-- The distinct values in first-occurrence order contain no duplicate. -/
lemma distinctFirst_nodup (l : List Str) : (distinctFirst l).Nodup :=
  distinctFirst_aux_nodup l [] List.nodup_nil

/-- Looking up the `n`-th element of a duplicate-free list in the record
that binds each element to a function of its index yields that function at
the element's index. -/
lemma alookup_enumFrom_map (f : ℕ → Str) :
    ∀ (l : List Str) (k n : ℕ) (hnd : l.Nodup) (hn : n < l.length),
      alookup (l.get ⟨n, hn⟩) ((l.enumFrom k).map (fun p => (p.2, f p.1))) =
        some (f (k + n)) := by
  intro l
  induction l with
  | nil => intro k n _ hn; simp at hn
  | cons x xs ih =>
    intro k n hnd hn
    cases n with
    | zero => simp [List.enumFrom, alookup]
    | succ n =>
      have hx : x ∉ xs := (List.nodup_cons.1 hnd).1
      have hxs : xs.Nodup := (List.nodup_cons.1 hnd).2
      have hn' : n < xs.length := by simpa using hn
      have hne : xs.get ⟨n, hn'⟩ ≠ x := by
        intro hEq
        exact hx (hEq ▸ List.get_mem xs n hn')
      simp only [List.enumFrom, List.map_cons, List.get_cons_succ, alookup]
      rw [if_neg hne, show k + (n + 1) = (k + 1) + n by omega]
      exact ih (k + 1) n hxs hn'

/-- Claim C8: for a nonempty column name the Categorical Style Assigner
builds the rule whose record binds the `n`-th distinct stringified value
of the column, in first-occurrence order, to `PALETTE[n % PALETTE.length]`;
an empty column name clears the rule; and repeated calls on unchanged rows
and column produce the identical mapping (the assigner is a pure
function). -/
theorem handleApplyStyle_spec :
    (∀ (rows : List SheetRow) (col : Str), col ≠ [] →
        handleApplyStyle rows col =
          some { column := col, colorMap := styleColorMap rows col }
        ∧ ∀ (n : ℕ) (hn : n < (distinctFirst (rows.map (fun r => rowGet r col))).length),
            alookup ((distinctFirst (rows.map (fun r => rowGet r col))).get ⟨n, hn⟩)
                (styleColorMap rows col) =
              some (PALETTE.getD (n % PALETTE.length) []))
    ∧ (∀ rows : List SheetRow, handleApplyStyle rows [] = none)
    ∧ (∀ (rows : List SheetRow) (col : Str),
        handleApplyStyle rows col = handleApplyStyle rows col) := by
  refine ⟨fun rows col hcol => ⟨?_, fun n hn => ?_⟩, fun rows => rfl, fun rows col => rfl⟩
  · simp [handleApplyStyle, hcol]
  · have hnd := distinctFirst_nodup (rows.map (fun r => rowGet r col))
    have h := alookup_enumFrom_map (fun i => PALETTE.getD (i % PALETTE.length) [])
      (distinctFirst (rows.map (fun r => rowGet r col))) 0 n hnd hn
    simpa [styleColorMap, List.enum] using h

/-- The column used by the style-assigner witness. -/
def demoStyleCol : Str := "t".toList

/-- Three rows whose `t` column takes the values `a`, `b`, `a`. -/
def demoStyleRows : List SheetRow :=
  [[("t".toList, "a".toList)], [("t".toList, "b".toList)], [("t".toList, "a".toList)]]

/-- Claim C8, witness: on rows with column values `a`, `b`, `a` the rule is
built and the first distinct value `a` receives the first palette color. -/
theorem handleApplyStyle_spec_witness :
    handleApplyStyle demoStyleRows demoStyleCol =
        some { column := demoStyleCol, colorMap := styleColorMap demoStyleRows demoStyleCol }
    ∧ alookup ("a".toList) (styleColorMap demoStyleRows demoStyleCol) =
        some ("#ef4444".toList) := by
  have h := handleApplyStyle_spec.1 demoStyleRows demoStyleCol (by decide)
  refine ⟨h.1, ?_⟩
  have h2 := h.2 0 (by decide)
  have e2 : PALETTE.getD (0 % PALETTE.length) ([] : Str) = "#ef4444".toList := by decide
  rw [e2] at h2
  convert h2 using 2

end SheetPlotter
